import Mathlib

/-! Signaling broker (`server/main.go`): shallow embedding

The Go program keeps three shared registries (`clients`, `waitingRoom`, `rooms`) and
mutates `Client` structs through pointers.  The embedding makes this explicit:

* a `*Client` is a `ClientPtr` (a number) into a `heap : ClientPtr → Client`;
* a `*websocket.Conn` is a `Conn` (a number);
* Go maps are association lists with `mapLookup` / `mapInsert` / `mapDelete`
  (only lookup, store, delete and `len` are used by the source, never iteration);
* every transport write (`sendMessage`, `conn.WriteMessage`) is appended to `outbox`
  (write errors are only logged by the source, so a write is recorded when attempted).

Each operation is the body of the Go function as one state transition; the mutex calls
`mu.Lock` / `mu.Unlock` are not part of these definitions.  The mutex is made explicit
in a second layer (`withMuLock`, `handleDisconnectLocked`) that wraps the same bodies.
-/

namespace Omegal

/-- Connection handle (`*websocket.Conn`). -/
abbrev Conn := Nat

/-- Pointer to a client struct (`*Client`). -/
abbrev ClientPtr := Nat

/-- The struct `Client` (main.go 17-22). -/
structure Client where
  conn : Conn
  username : String
  roomID : String
  matched : Bool
deriving DecidableEq, Repr

/-- The struct `Room` (main.go 24-27). -/
structure Room where
  ID : String
  Clients : List ClientPtr
deriving DecidableEq, Repr

/-- The struct `Message` (main.go 36-41); `Type_` is the Go field `Type`. -/
structure Message where
  Type_ : String
  Username : String
  RoomID : String
  Data : String
deriving DecidableEq, Repr

/-- A decoded JSON value as far as the source inspects it: either a string, or
anything else (the source only ever type-asserts `.(string)`). -/
inductive JSONValue where
  | str (s : String)
  | other (tag : Nat)
deriving DecidableEq, Repr

/-- An inbound decoded message, `map[string]interface{}`. -/
abbrev Payload := List (String × JSONValue)

/-- What is written to a connection: a marshalled `Message` (through `sendMessage`) or a
relayed inbound payload marshalled as it is (through `forwardToRoomPartner`). -/
inductive Frame where
  | envelope (m : Message)
  | forwarded (msg : Payload)
deriving DecidableEq, Repr

/-- Go map lookup `m[k]` with the `exists` flag as `Option`. -/
def mapLookup {K V : Type} [DecidableEq K] : List (K × V) → K → Option V
  | [], _ => none
  | (k', v) :: rest, k => if k' = k then some v else mapLookup rest k

/-- Go `delete(m, k)`. -/
def mapDelete {K V : Type} [DecidableEq K] (m : List (K × V)) (k : K) : List (K × V) :=
  m.filter (fun e => decide (e.1 ≠ k))

/-- Go map store `m[k] = v`: replaces the entry of `k` if there is one. -/
def mapInsert {K V : Type} [DecidableEq K] (m : List (K × V)) (k : K) (v : V) : List (K × V) :=
  (k, v) :: mapDelete m k

/-- The package-level variables (main.go 29-34) together with the client structs they
point to (`heap`, with `next` the next unallocated pointer) and the log of writes. -/
structure State where
  heap : ClientPtr → Client
  next : ClientPtr
  clients : List (Conn × ClientPtr)
  waitingRoom : List ClientPtr
  rooms : List (String × Room)
  outbox : List (Conn × Frame)

/-- The initial state: no clients, empty queue, no rooms, nothing sent. -/
def State.init : State where
  heap := fun _ => ⟨0, "", "", false⟩
  next := 0
  clients := []
  waitingRoom := []
  rooms := []
  outbox := []

/-- Function `sendMessage` (main.go 279-289): one text frame written to `conn`. -/
def sendMessage (s : State) (conn : Conn) (msg : Message) : State :=
  { s with outbox := s.outbox ++ [(conn, Frame.envelope msg)] }

/-- The room identifier `fmt.Sprintf("room_%d", len(rooms)+1)` (main.go 171). -/
def nextRoomID (s : State) : String :=
  "room_" ++ toString (s.rooms.length + 1)

/-- Function `tryMatchUsers` (main.go 161-193). -/
def tryMatchUsers (s : State) : State :=
  match s.waitingRoom with
  | user1 :: user2 :: rest =>
    let roomID := nextRoomID s
    let room : Room := ⟨roomID, [user1, user2]⟩
    let h1 := Function.update s.heap user1 { s.heap user1 with roomID := roomID }
    let h2 := Function.update h1 user2 { h1 user2 with roomID := roomID }
    let h3 := Function.update h2 user1 { h2 user1 with matched := true }
    let h4 := Function.update h3 user2 { h3 user2 with matched := true }
    let s1 : State :=
      { s with waitingRoom := rest, rooms := mapInsert s.rooms roomID room, heap := h4 }
    let s2 := sendMessage s1 (s1.heap user1).conn ⟨"matched", "", roomID, "caller"⟩
    sendMessage s2 (s2.heap user2).conn ⟨"matched", "", roomID, "answerer"⟩
  | _ => s

/-- The state of `joinWaitingRoom` right before its call of `tryMatchUsers`
(main.go 135-140): the client is appended and told the queue length. -/
def enqueue (s : State) (client : ClientPtr) : State :=
  let s1 : State := { s with waitingRoom := s.waitingRoom ++ [client] }
  sendMessage s1 (s1.heap client).conn
    ⟨"waiting", "", "",
      "Waiting for another user... (" ++ toString s1.waitingRoom.length ++ " users waiting)"⟩

/-- Function `joinWaitingRoom` (main.go 124-144). -/
def joinWaitingRoom (s : State) (client : ClientPtr) : State :=
  if client ∈ s.waitingRoom then s
  else tryMatchUsers (enqueue s client)

/-- Function `leaveWaitingRoom` (main.go 146-159): the first occurrence is spliced out. -/
def leaveWaitingRoom (s : State) (client : ClientPtr) : State :=
  { s with waitingRoom := s.waitingRoom.erase client }

/-- Function `forwardToRoomPartner` (main.go 195-223).  The payload comes from
`json.Unmarshal`, so `json.Marshal` of it does not fail; the frame carries the payload. -/
def forwardToRoomPartner (s : State) (client : ClientPtr) (msg : Payload) : State :=
  if (s.heap client).roomID = "" then s
  else
    match mapLookup s.rooms (s.heap client).roomID with
    | none => s
    | some room =>
      match room.Clients.find? (fun roomClient => decide (roomClient ≠ client)) with
      | some roomClient =>
        { s with outbox := s.outbox ++ [((s.heap roomClient).conn, Frame.forwarded msg)] }
      | none => s

/-- The loop of `endCall` (main.go 239-244): every member other than `client` is told. -/
def notifyPartners (s : State) (client : ClientPtr) : List ClientPtr → State
  | [] => s
  | roomClient :: rest =>
    if roomClient ≠ client then
      notifyPartners (sendMessage s (s.heap roomClient).conn ⟨"call_ended", "", "", ""⟩)
        client rest
    else notifyPartners s client rest

/-- Function `endCall` (main.go 225-254). -/
def endCall (s : State) (client : ClientPtr) : State :=
  if (s.heap client).roomID = "" then s
  else
    match mapLookup s.rooms (s.heap client).roomID with
    | none => s
    | some room =>
      let s1 := notifyPartners s client room.Clients
      let s2 : State := { s1 with rooms := mapDelete s1.rooms (s1.heap client).roomID }
      let h1 := Function.update s2.heap client { s2.heap client with roomID := "" }
      let h2 := Function.update h1 client { h1 client with matched := false }
      { s2 with heap := h2 }

/-- Function `handleDisconnect` (main.go 256-277). -/
def handleDisconnect (s : State) (ws : Conn) : State :=
  match mapLookup s.clients ws with
  | none => s
  | some client =>
    let s1 := leaveWaitingRoom s client
    let s2 := if (s1.heap client).roomID ≠ "" then endCall s1 client else s1
    { s2 with clients := mapDelete s2.clients ws }

/-- The part of `handleConnections` before its read loop (main.go 57-73): a new client
struct is allocated for the connection `ws`, registered, and sent `connected`. -/
def connect (s : State) (ws : Conn) : State :=
  let client := s.next
  let s1 : State :=
    { s with heap := Function.update s.heap client ⟨ws, "", "", false⟩,
             next := s.next + 1,
             clients := mapInsert s.clients ws client }
  sendMessage s1 ws ⟨"connected", "", "", ""⟩

/-- Function `handleMessage` (main.go 92-122). -/
def handleMessage (s : State) (client : ClientPtr) (msg : Payload) : State :=
  match mapLookup msg "type" with
  | some (JSONValue.str msgType) =>
    if msgType = "join_waiting" then
      let s1 : State :=
        match mapLookup msg "Username" with
        | some (JSONValue.str username) =>
          { s with heap := Function.update s.heap client
                      { s.heap client with username := username } }
        | _ => s
      joinWaitingRoom s1 client
    else if msgType = "leave_waiting" then leaveWaitingRoom s client
    else if msgType = "sdp" then forwardToRoomPartner s client msg
    else if msgType = "candidate" then forwardToRoomPartner s client msg
    else if msgType = "end_call" then endCall s client
    else s
  | _ => s

/-- The client is in the connection registry under its own connection: it is the
client of a live connection, the only kind of client whose messages are dispatched. -/
def registered (s : State) (client : ClientPtr) : Prop :=
  mapLookup s.clients (s.heap client).conn = some client

instance (s : State) (client : ClientPtr) : Decidable (registered s client) := by
  unfold registered; infer_instance

/-- A connection handle returned by the upgrade is new: no allocated client has it. -/
def freshConn (s : State) (ws : Conn) : Prop :=
  ∀ p, p < s.next → (s.heap p).conn ≠ ws

instance (s : State) (ws : Conn) : Decidable (freshConn s ws) := by
  unfold freshConn; infer_instance

/-- States reachable from the initial state.  A connection is accepted with a new
handle; a registered client issues any of the dispatched operations (alone or through
`handleMessage`); a connection is torn down. -/
inductive Reachable : State → Prop where
  | init : Reachable State.init
  | connect {s : State} (ws : Conn) :
      Reachable s → freshConn s ws → Reachable (connect s ws)
  | join {s : State} (c : ClientPtr) :
      Reachable s → registered s c → Reachable (joinWaitingRoom s c)
  | leave {s : State} (c : ClientPtr) :
      Reachable s → registered s c → Reachable (leaveWaitingRoom s c)
  | forward {s : State} (c : ClientPtr) (msg : Payload) :
      Reachable s → registered s c → Reachable (forwardToRoomPartner s c msg)
  | endCall {s : State} (c : ClientPtr) :
      Reachable s → registered s c → Reachable (endCall s c)
  | message {s : State} (c : ClientPtr) (msg : Payload) :
      Reachable s → registered s c → Reachable (handleMessage s c msg)
  | disconnect {s : State} (ws : Conn) :
      Reachable s → Reachable (handleDisconnect s ws)

/-- The client is one of the members of the room. -/
def isMember (c : ClientPtr) (r : Room) : Prop := c ∈ r.Clients

instance (c : ClientPtr) (r : Room) : Decidable (isMember c r) := by
  unfold isMember; infer_instance

/-- A registry entry is in order: the room is stored under its own identifier, the
identifier is not the empty string, and the members are two different allocated clients. -/
def RoomOK (n : ClientPtr) (k : String) (r : Room) : Prop :=
  r.ID = k ∧ k ≠ "" ∧ ∃ a b, r.Clients = [a, b] ∧ a ≠ b ∧ a < n ∧ b < n

/-- Well-formedness of a state: the queue holds no client twice, every room is stored
under its own identifier and has two different members, pointers held by the registries
are allocated, allocated clients have different connections, and the connection
registry maps a connection to the client that holds it. -/
structure Inv (s : State) : Prop where
  queue_nodup : s.waitingRoom.Nodup
  queue_alloc : ∀ p ∈ s.waitingRoom, p < s.next
  rooms_wf : ∀ k r, (k, r) ∈ s.rooms → RoomOK s.next k r
  conn_inj : ∀ p q, p < s.next → q < s.next → (s.heap p).conn = (s.heap q).conn → p = q
  clients_ok : ∀ ws p, (ws, p) ∈ s.clients → p < s.next ∧ (s.heap p).conn = ws

/-! ## Concrete runs -/

/-- Two accepted connections, `100` and `101`; their clients are `0` and `1`. -/
def twoClients : State := connect (connect State.init 100) 101

/-- Four accepted connections `100 .. 103`; their clients are `0 .. 3`. -/
def fourClients : State := connect (connect twoClients 102) 103

/-- Client `0` is queued, client `1` is appended: the state in which `joinWaitingRoom`
calls `tryMatchUsers`. -/
def pairQueued : State := enqueue (joinWaitingRoom twoClients 0) 1

/-- Clients `0` and `1` joined in this order and are matched in `room_1`. -/
def pairState : State := joinWaitingRoom (joinWaitingRoom twoClients 0) 1

/-- Three accepted connections `100 .. 102`; their clients are `0 .. 2`. -/
def threeClients : State := connect twoClients 102

/-- Rooms `room_1 = [0, 1]` and `room_2 = [2, 3]` exist. -/
def twoRooms : State :=
  joinWaitingRoom (joinWaitingRoom (joinWaitingRoom (joinWaitingRoom fourClients 0) 1) 2) 3

/-- From `twoRooms`, client `0` ends its call (only `room_2` is left) and queues again. -/
def reusedIdState : State := joinWaitingRoom (endCall twoRooms 0) 0

/-- From `pairState`, client `1` ends the call and client `0`, told so, queues again. -/
def requeuedState : State := joinWaitingRoom (endCall pairState 1) 0

/-- From `pairState`, client `0` queues again while still in `room_1`. -/
def rejoinState : State := joinWaitingRoom pairState 0

/-- Clients `0`, `1` are matched, then `0` queues again and is matched with `2`. -/
def doubleRoomState : State :=
  joinWaitingRoom (joinWaitingRoom (joinWaitingRoom (joinWaitingRoom threeClients 0) 1) 0) 2

/-- Clients `0`, `1` are matched, `1` ends the call, then `2`, `3` are matched. -/
def staleState : State :=
  joinWaitingRoom (joinWaitingRoom
    (endCall (joinWaitingRoom (joinWaitingRoom fourClients 0) 1) 1) 2) 3

/-- A relayed payload. -/
def sdpOffer : Payload := [("type", JSONValue.str "sdp"), ("sdp", JSONValue.str "offer")]

/-! ## Sequences of queue operations -/

/-- A queue operation issued by a client: `join_waiting` or `leave_waiting`. -/
inductive QueueOp where
  | join (c : ClientPtr)
  | leave (c : ClientPtr)
deriving DecidableEq, Repr

/-- One queue operation: `joinWaitingRoom` or `leaveWaitingRoom`. -/
def applyQueueOp (s : State) : QueueOp → State
  | QueueOp.join c => joinWaitingRoom s c
  | QueueOp.leave c => leaveWaitingRoom s c

/-- A finite sequence of queue operations, applied from left to right. -/
def runQueueOps (s : State) (ops : List QueueOp) : State :=
  ops.foldl applyQueueOp s

/-! ## The mutex `mu` made explicit

`held` says whether the exclusive lock of `mu` is taken.  `sync.RWMutex` is not
reentrant: `mu.Lock()` on a held mutex waits until it is released, and `mu.Unlock()` on
a free mutex is a fatal runtime error. -/

/-- How a call ends: it returns (leaving the mutex free or held), it waits forever in
`mu.Lock()`, or the runtime aborts in `mu.Unlock()`. -/
inductive Outcome where
  | returned (s : State) (held : Bool)
  | blocked
  | fatal

/-- The pattern `mu.Lock(); defer mu.Unlock(); body` at the head of a function: the lock
is acquired if it is free, the body runs with the lock held, and the deferred unlock
runs when the body has returned. -/
def withMuLock (held : Bool) (body : Bool → Outcome) : Outcome :=
  if held then Outcome.blocked
  else
    match body true with
    | Outcome.returned s h => if h then Outcome.returned s false else Outcome.fatal
    | Outcome.blocked => Outcome.blocked
    | Outcome.fatal => Outcome.fatal

/-- Function `leaveWaitingRoom` (main.go 146-159) with its lock calls (147-148). -/
def leaveWaitingRoomLocked (s : State) (held : Bool) (client : ClientPtr) : Outcome :=
  withMuLock held (fun h => Outcome.returned (leaveWaitingRoom s client) h)

/-- Function `endCall` (main.go 225-254) with its lock calls (226-227). -/
def endCallLocked (s : State) (held : Bool) (client : ClientPtr) : Outcome :=
  withMuLock held (fun h => Outcome.returned (endCall s client) h)

/-- Function `handleDisconnect` (main.go 256-277) with its lock calls (257-258) and
those of its callees. -/
def handleDisconnectLocked (s : State) (held : Bool) (ws : Conn) : Outcome :=
  withMuLock held (fun h =>
    match mapLookup s.clients ws with
    | none => Outcome.returned s h
    | some client =>
      match leaveWaitingRoomLocked s h client with
      | Outcome.returned s1 h1 =>
        match (if (s1.heap client).roomID ≠ "" then endCallLocked s1 h1 client
               else Outcome.returned s1 h1) with
        | Outcome.returned s2 h2 =>
          Outcome.returned { s2 with clients := mapDelete s2.clients ws } h2
        | Outcome.blocked => Outcome.blocked
        | Outcome.fatal => Outcome.fatal
      | Outcome.blocked => Outcome.blocked
      | Outcome.fatal => Outcome.fatal)

/-- The status frame of `joinWaitingRoom` (main.go 139) for a queue of `n` clients. -/
def waitingStatus (n : Nat) : Message :=
  ⟨"waiting", "", "", "Waiting for another user... (" ++ toString n ++ " users waiting)"⟩

/-- An inbound `join_waiting` message that carries the display name under the key
`username`, the key of the `Message` struct tag (main.go 38). -/
def joinAlice : Payload :=
  [("type", JSONValue.str "join_waiting"), ("username", JSONValue.str "alice")]

/-- The two room fields of a client struct agree: `matched` is set exactly when
`roomID` is not the empty string. -/
def Consistent (cl : Client) : Prop :=
  cl.matched = true ↔ cl.roomID ≠ ""

/-! ## The re-join scenario -/

/-- Client `X` joins, then client `Y` joins. -/
def firstMatch (s : State) (X Y : ClientPtr) : State :=
  joinWaitingRoom (joinWaitingRoom s X) Y

/-- After `firstMatch`, client `Y` ends the call. -/
def afterEnd (s : State) (X Y : ClientPtr) : State :=
  endCall (firstMatch s X Y) Y

/-- After `afterEnd`, client `X` joins again, then client `Z` joins. -/
def rematch (s : State) (X Y Z : ClientPtr) : State :=
  joinWaitingRoom (joinWaitingRoom (afterEnd s X Y) X) Z

/-! ## Go maps as association lists -/

theorem mapLookup_mem {K V : Type} [DecidableEq K] (m : List (K × V)) (k : K) (v : V)
    (h : mapLookup m k = some v) : (k, v) ∈ m := by
  induction m with
  | nil => simp [mapLookup] at h
  | cons e rest ih =>
    obtain ⟨k', v'⟩ := e
    by_cases hk : k' = k
    · subst hk
      simp [mapLookup] at h
      simp [h]
    · simp [mapLookup, hk] at h
      exact List.mem_cons_of_mem _ (ih h)

theorem mem_mapDelete {K V : Type} [DecidableEq K] (m : List (K × V)) (k : K) (e : K × V) :
    e ∈ mapDelete m k ↔ e ∈ m ∧ e.1 ≠ k := by
  simp [mapDelete, List.mem_filter]

theorem mapLookup_delete_self {K V : Type} [DecidableEq K] (m : List (K × V)) (k : K) :
    mapLookup (mapDelete m k) k = none := by
  induction m with
  | nil => rfl
  | cons e rest ih =>
    obtain ⟨k', v'⟩ := e
    by_cases hk : k' = k
    · simpa [mapDelete, List.filter_cons, hk] using ih
    · simpa [mapDelete, List.filter_cons, hk, mapLookup] using ih

theorem mapLookup_delete_ne {K V : Type} [DecidableEq K] (m : List (K × V)) (k k' : K)
    (h : k' ≠ k) : mapLookup (mapDelete m k) k' = mapLookup m k' := by
  induction m with
  | nil => rfl
  | cons e rest ih =>
    obtain ⟨k'', v''⟩ := e
    have ih2 : mapLookup (List.filter (fun e => decide (e.1 ≠ k)) rest) k' = mapLookup rest k' := ih
    by_cases hk : k'' = k
    · subst hk
      have hne : k'' ≠ k' := fun h2 => h h2.symm
      have e1 : mapDelete ((k'', v'') :: rest) k'' = List.filter (fun e => decide (e.1 ≠ k'')) rest := by
        simp [mapDelete, List.filter_cons]
      rw [e1, ih2]
      simp [mapLookup, hne]
    · have e1 : mapDelete ((k'', v'') :: rest) k
          = (k'', v'') :: List.filter (fun e => decide (e.1 ≠ k)) rest := by
        simp [mapDelete, List.filter_cons, hk]
      rw [e1]
      by_cases hk2 : k'' = k'
      · simp [mapLookup, hk2]
      · simp only [mapLookup, if_neg hk2]
        exact ih2

theorem mapLookup_insert_self {K V : Type} [DecidableEq K] (m : List (K × V)) (k : K) (v : V) :
    mapLookup (mapInsert m k v) k = some v := by
  simp [mapInsert, mapLookup]

theorem mapLookup_insert_ne {K V : Type} [DecidableEq K] (m : List (K × V)) (k k' : K) (v : V)
    (h : k' ≠ k) : mapLookup (mapInsert m k v) k' = mapLookup m k' := by
  have hne : k ≠ k' := fun h2 => h h2.symm
  simp [mapInsert, mapLookup, hne, mapLookup_delete_ne m k k' h]

/-! ## What each operation does to each component of the state -/

@[simp] theorem sendMessage_heap (s : State) (ws : Conn) (m : Message) :
    (sendMessage s ws m).heap = s.heap := rfl

@[simp] theorem sendMessage_next (s : State) (ws : Conn) (m : Message) :
    (sendMessage s ws m).next = s.next := rfl

@[simp] theorem sendMessage_clients (s : State) (ws : Conn) (m : Message) :
    (sendMessage s ws m).clients = s.clients := rfl

@[simp] theorem sendMessage_waitingRoom (s : State) (ws : Conn) (m : Message) :
    (sendMessage s ws m).waitingRoom = s.waitingRoom := rfl

@[simp] theorem sendMessage_rooms (s : State) (ws : Conn) (m : Message) :
    (sendMessage s ws m).rooms = s.rooms := rfl

@[simp] theorem sendMessage_outbox (s : State) (ws : Conn) (m : Message) :
    (sendMessage s ws m).outbox = s.outbox ++ [(ws, Frame.envelope m)] := rfl

theorem nextRoomID_ne_empty (s : State) : nextRoomID s ≠ "" := by
  intro h
  have h2 := congrArg String.length h
  rw [nextRoomID, String.length_append] at h2
  have h5 : "room_".length = 5 := by decide
  have h0 : "".length = 0 := rfl
  omega

theorem tryMatchUsers_short (s : State) (h : s.waitingRoom.length < 2) :
    tryMatchUsers s = s := by
  unfold tryMatchUsers
  split
  · next u1 u2 rest heq => rw [heq] at h; simp at h; omega
  · rfl

theorem tryMatchUsers_waitingRoom (s : State) (u1 u2 : ClientPtr) (rest : List ClientPtr)
    (h : s.waitingRoom = u1 :: u2 :: rest) : (tryMatchUsers s).waitingRoom = rest := by
  simp [tryMatchUsers, h]

theorem tryMatchUsers_rooms (s : State) (u1 u2 : ClientPtr) (rest : List ClientPtr)
    (h : s.waitingRoom = u1 :: u2 :: rest) :
    (tryMatchUsers s).rooms
      = mapInsert s.rooms (nextRoomID s) ⟨nextRoomID s, [u1, u2]⟩ := by
  simp [tryMatchUsers, h]

theorem tryMatchUsers_next (s : State) : (tryMatchUsers s).next = s.next := by
  unfold tryMatchUsers
  split <;> rfl

theorem tryMatchUsers_clients (s : State) : (tryMatchUsers s).clients = s.clients := by
  unfold tryMatchUsers
  split <;> rfl

theorem tryMatchUsers_heap (s : State) (u1 u2 : ClientPtr) (rest : List ClientPtr)
    (h : s.waitingRoom = u1 :: u2 :: rest) (q : ClientPtr) :
    (tryMatchUsers s).heap q
      = if q = u1 ∨ q = u2 then
          { s.heap q with roomID := nextRoomID s, matched := true }
        else s.heap q := by
  simp only [tryMatchUsers, h, sendMessage_heap]
  by_cases h12 : u1 = u2
  · subst h12
    by_cases h1 : q = u1
    · subst h1; simp [Function.update_same]
    · simp [Function.update_noteq h1, h1]
  · have h21 : u2 ≠ u1 := Ne.symm h12
    by_cases h1 : q = u1
    · subst h1
      simp [Function.update_same, Function.update_noteq h12, Function.update_noteq h21]
    · by_cases h2 : q = u2
      · subst h2
        simp [Function.update_same, Function.update_noteq h12, Function.update_noteq h21]
      · simp [Function.update_noteq h1, Function.update_noteq h2, h1, h2]

theorem tryMatchUsers_conn (s : State) (q : ClientPtr) :
    ((tryMatchUsers s).heap q).conn = (s.heap q).conn := by
  by_cases hl : s.waitingRoom.length < 2
  · rw [tryMatchUsers_short s hl]
  · match hq : s.waitingRoom with
    | [] => simp [hq] at hl
    | [_] => simp [hq] at hl
    | u1 :: u2 :: rest =>
      rw [tryMatchUsers_heap s u1 u2 rest hq q]
      split <;> rfl

theorem tryMatchUsers_outbox (s : State) (u1 u2 : ClientPtr) (rest : List ClientPtr)
    (h : s.waitingRoom = u1 :: u2 :: rest) :
    (tryMatchUsers s).outbox
      = s.outbox ++
        [((s.heap u1).conn, Frame.envelope ⟨"matched", "", nextRoomID s, "caller"⟩),
         ((s.heap u2).conn, Frame.envelope ⟨"matched", "", nextRoomID s, "answerer"⟩)] := by
  have c1 := tryMatchUsers_conn s u1
  have c2 := tryMatchUsers_conn s u2
  simp only [tryMatchUsers, h, sendMessage_heap, sendMessage_outbox] at c1 c2 ⊢
  rw [c1, c2]
  simp

theorem notifyPartners_heap (s : State) (c : ClientPtr) (l : List ClientPtr) :
    (notifyPartners s c l).heap = s.heap := by
  induction l generalizing s with
  | nil => rfl
  | cons p rest ih =>
    simp only [notifyPartners]
    split
    · rw [ih]; rfl
    · exact ih s

theorem notifyPartners_next (s : State) (c : ClientPtr) (l : List ClientPtr) :
    (notifyPartners s c l).next = s.next := by
  induction l generalizing s with
  | nil => rfl
  | cons p rest ih =>
    simp only [notifyPartners]
    split
    · rw [ih]; rfl
    · exact ih s

theorem notifyPartners_clients (s : State) (c : ClientPtr) (l : List ClientPtr) :
    (notifyPartners s c l).clients = s.clients := by
  induction l generalizing s with
  | nil => rfl
  | cons p rest ih =>
    simp only [notifyPartners]
    split
    · rw [ih]; rfl
    · exact ih s

theorem notifyPartners_waitingRoom (s : State) (c : ClientPtr) (l : List ClientPtr) :
    (notifyPartners s c l).waitingRoom = s.waitingRoom := by
  induction l generalizing s with
  | nil => rfl
  | cons p rest ih =>
    simp only [notifyPartners]
    split
    · rw [ih]; rfl
    · exact ih s

theorem notifyPartners_rooms (s : State) (c : ClientPtr) (l : List ClientPtr) :
    (notifyPartners s c l).rooms = s.rooms := by
  induction l generalizing s with
  | nil => rfl
  | cons p rest ih =>
    simp only [notifyPartners]
    split
    · rw [ih]; rfl
    · exact ih s

theorem notifyPartners_outbox (s : State) (c : ClientPtr) (l : List ClientPtr) :
    (notifyPartners s c l).outbox
      = s.outbox ++ (l.filter (fun p => decide (p ≠ c))).map
          (fun p => ((s.heap p).conn, Frame.envelope ⟨"call_ended", "", "", ""⟩)) := by
  induction l generalizing s with
  | nil => simp [notifyPartners]
  | cons p rest ih =>
    simp only [notifyPartners]
    split
    · next hp =>
      rw [ih]
      simp [List.filter_cons, hp]
    · next hp =>
      rw [ih]
      simp [List.filter_cons, hp]

theorem endCall_next (s : State) (c : ClientPtr) : (endCall s c).next = s.next := by
  unfold endCall
  split
  · rfl
  · split
    · rfl
    · simp [notifyPartners_next]

theorem endCall_clients (s : State) (c : ClientPtr) : (endCall s c).clients = s.clients := by
  unfold endCall
  split
  · rfl
  · split
    · rfl
    · simp [notifyPartners_clients]

theorem endCall_waitingRoom (s : State) (c : ClientPtr) :
    (endCall s c).waitingRoom = s.waitingRoom := by
  unfold endCall
  split
  · rfl
  · split
    · rfl
    · simp [notifyPartners_waitingRoom]

theorem endCall_heap (s : State) (c : ClientPtr) (r : Room)
    (h1 : (s.heap c).roomID ≠ "") (h2 : mapLookup s.rooms (s.heap c).roomID = some r)
    (q : ClientPtr) :
    (endCall s c).heap q
      = if q = c then { s.heap c with roomID := "", matched := false } else s.heap q := by
  simp only [endCall, if_neg h1, h2, notifyPartners_heap]
  by_cases hq : q = c
  · subst hq; simp [Function.update_same]
  · simp [Function.update_noteq hq, hq]

theorem endCall_rooms (s : State) (c : ClientPtr) (r : Room)
    (h1 : (s.heap c).roomID ≠ "") (h2 : mapLookup s.rooms (s.heap c).roomID = some r) :
    (endCall s c).rooms = mapDelete s.rooms (s.heap c).roomID := by
  simp only [endCall, if_neg h1, h2, notifyPartners_heap, notifyPartners_rooms]

theorem endCall_outbox (s : State) (c : ClientPtr) (r : Room)
    (h1 : (s.heap c).roomID ≠ "") (h2 : mapLookup s.rooms (s.heap c).roomID = some r) :
    (endCall s c).outbox
      = s.outbox ++ (r.Clients.filter (fun p => decide (p ≠ c))).map
          (fun p => ((s.heap p).conn, Frame.envelope ⟨"call_ended", "", "", ""⟩)) := by
  simp only [endCall, if_neg h1, h2, notifyPartners_outbox]

theorem endCall_conn (s : State) (c q : ClientPtr) :
    ((endCall s c).heap q).conn = (s.heap q).conn := by
  by_cases h1 : (s.heap c).roomID = ""
  · simp [endCall, h1]
  · cases h2 : mapLookup s.rooms (s.heap c).roomID with
    | none => simp [endCall, h1, h2]
    | some r =>
      rw [endCall_heap s c r h1 h2 q]
      split
      · next hq => subst hq; rfl
      · rfl

theorem endCall_rooms_subset (s : State) (c : ClientPtr) (e : String × Room)
    (h : e ∈ (endCall s c).rooms) : e ∈ s.rooms := by
  by_cases h1 : (s.heap c).roomID = ""
  · simpa [endCall, h1] using h
  · cases h2 : mapLookup s.rooms (s.heap c).roomID with
    | none => simpa [endCall, h1, h2] using h
    | some r =>
      rw [endCall_rooms s c r h1 h2] at h
      exact ((mem_mapDelete _ _ _).1 h).1

/-! ## The well-formedness invariant holds in every reachable state -/

theorem Inv.of_frame {s t : State} (hs : Inv s) (hn : t.next = s.next)
    (hc : ∀ e ∈ t.clients, e ∈ s.clients)
    (hconn : ∀ p, (t.heap p).conn = (s.heap p).conn)
    (hq : t.waitingRoom.Nodup) (hqa : ∀ p ∈ t.waitingRoom, p < s.next)
    (hr : ∀ k r, (k, r) ∈ t.rooms → (k, r) ∈ s.rooms ∨ RoomOK s.next k r) :
    Inv t where
  queue_nodup := hq
  queue_alloc := by rw [hn]; exact hqa
  rooms_wf := by
    intro k r hkr
    rw [hn]
    rcases hr k r hkr with h | h
    · exact hs.rooms_wf k r h
    · exact h
  conn_inj := by
    intro p q hp hq2 hpq
    rw [hn] at hp hq2
    rw [hconn, hconn] at hpq
    exact hs.conn_inj p q hp hq2 hpq
  clients_ok := by
    intro ws p hm
    rw [hn, hconn]
    exact hs.clients_ok ws p (hc _ hm)

theorem inv_init : Inv State.init where
  queue_nodup := List.nodup_nil
  queue_alloc := by intro p hp; simp [State.init] at hp
  rooms_wf := by intro k r h; simp [State.init] at h
  conn_inj := by intro p q hp; simp [State.init] at hp
  clients_ok := by intro ws p h; simp [State.init] at h

theorem registered_alloc {s : State} (hs : Inv s) {c : ClientPtr} (hc : registered s c) :
    c < s.next :=
  (hs.clients_ok _ _ (mapLookup_mem _ _ _ hc)).1

theorem inv_connect {s : State} (hs : Inv s) (ws : Conn) (hf : freshConn s ws) :
    Inv (connect s ws) where
  queue_nodup := hs.queue_nodup
  queue_alloc := by
    intro p hp
    exact Nat.lt_succ_of_lt (hs.queue_alloc p hp)
  rooms_wf := by
    intro k r hkr
    obtain ⟨h1, h0, a, b, h2, h3, h4, h5⟩ := hs.rooms_wf k r hkr
    exact ⟨h1, h0, a, b, h2, h3, Nat.lt_succ_of_lt h4, Nat.lt_succ_of_lt h5⟩
  conn_inj := by
    intro p q hp hq hpq
    have hp2 : p < s.next + 1 := hp
    have hq2 : q < s.next + 1 := hq
    have hpq2 : (Function.update s.heap s.next ⟨ws, "", "", false⟩ p).conn
        = (Function.update s.heap s.next ⟨ws, "", "", false⟩ q).conn := hpq
    by_cases h1 : p = s.next
    · by_cases h2 : q = s.next
      · rw [h1, h2]
      · exfalso
        rw [h1, Function.update_same, Function.update_noteq h2] at hpq2
        exact hf q (Nat.lt_of_le_of_ne (Nat.le_of_lt_succ hq2) h2) hpq2.symm
    · by_cases h2 : q = s.next
      · exfalso
        rw [h2, Function.update_same, Function.update_noteq h1] at hpq2
        exact hf p (Nat.lt_of_le_of_ne (Nat.le_of_lt_succ hp2) h1) hpq2
      · rw [Function.update_noteq h1, Function.update_noteq h2] at hpq2
        exact hs.conn_inj p q (Nat.lt_of_le_of_ne (Nat.le_of_lt_succ hp2) h1)
          (Nat.lt_of_le_of_ne (Nat.le_of_lt_succ hq2) h2) hpq2
  clients_ok := by
    intro ws2 p hm
    have hm2 : (ws2, p) ∈ mapInsert s.clients ws s.next := hm
    show p < s.next + 1 ∧ (Function.update s.heap s.next ⟨ws, "", "", false⟩ p).conn = ws2
    rcases List.mem_cons.1 hm2 with h | h
    · injection h with h1 h2
      subst h1; subst h2
      exact ⟨Nat.lt_succ_self _, by rw [Function.update_same]⟩
    · have h3 := hs.clients_ok ws2 p ((mem_mapDelete _ _ _).1 h).1
      have hne : p ≠ s.next := Nat.ne_of_lt h3.1
      exact ⟨Nat.lt_succ_of_lt h3.1, by rw [Function.update_noteq hne]; exact h3.2⟩

theorem inv_tryMatchUsers {s : State} (hs : Inv s) : Inv (tryMatchUsers s) := by
  by_cases hl : s.waitingRoom.length < 2
  · rw [tryMatchUsers_short s hl]; exact hs
  · match hq : s.waitingRoom with
    | [] => simp [hq] at hl
    | [_] => simp [hq] at hl
    | u1 :: u2 :: rest =>
      have hnd := hs.queue_nodup
      rw [hq] at hnd
      have halloc := hs.queue_alloc
      rw [hq] at halloc
      refine Inv.of_frame hs (tryMatchUsers_next s) ?_ (tryMatchUsers_conn s) ?_ ?_ ?_
      · intro e he; rw [tryMatchUsers_clients] at he; exact he
      · rw [tryMatchUsers_waitingRoom s u1 u2 rest hq]
        exact (List.nodup_cons.1 (List.nodup_cons.1 hnd).2).2
      · rw [tryMatchUsers_waitingRoom s u1 u2 rest hq]
        intro p hp
        exact halloc p (List.mem_cons_of_mem _ (List.mem_cons_of_mem _ hp))
      · intro k r hkr
        rw [tryMatchUsers_rooms s u1 u2 rest hq] at hkr
        rcases List.mem_cons.1 hkr with h | h
        · right
          injection h with h1 h2
          subst h1; subst h2
          refine ⟨rfl, nextRoomID_ne_empty s, u1, u2, rfl, ?_, halloc u1 (by simp),
            halloc u2 (by simp)⟩
          intro h12
          have := (List.nodup_cons.1 hnd).1
          simp [h12] at this
        · left
          exact ((mem_mapDelete _ _ _).1 h).1

theorem enqueue_conn (s : State) (c q : ClientPtr) :
    ((enqueue s c).heap q).conn = (s.heap q).conn := rfl

theorem inv_enqueue {s : State} (hs : Inv s) {c : ClientPtr} (hc : c < s.next)
    (hnot : c ∉ s.waitingRoom) : Inv (enqueue s c) := by
  refine Inv.of_frame hs rfl (fun e he => he) (fun p => rfl) ?_ ?_ (fun k r h => Or.inl h)
  · show (s.waitingRoom ++ [c]).Nodup
    rw [List.nodup_append]
    refine ⟨hs.queue_nodup, List.nodup_singleton c, ?_⟩
    intro a ha hb
    rw [List.mem_singleton] at hb
    subst hb
    exact hnot ha
  · intro p hp
    have hp2 : p ∈ s.waitingRoom ++ [c] := hp
    rcases List.mem_append.1 hp2 with h | h
    · exact hs.queue_alloc p h
    · rw [List.mem_singleton] at h; subst h; exact hc

theorem inv_joinWaitingRoom {s : State} (hs : Inv s) {c : ClientPtr} (hc : c < s.next) :
    Inv (joinWaitingRoom s c) := by
  unfold joinWaitingRoom
  split
  · exact hs
  · next hnot => exact inv_tryMatchUsers (inv_enqueue hs hc hnot)

theorem inv_leaveWaitingRoom {s : State} (hs : Inv s) (c : ClientPtr) :
    Inv (leaveWaitingRoom s c) := by
  refine Inv.of_frame hs rfl (fun e he => he) (fun p => rfl) ?_ ?_ (fun k r h => Or.inl h)
  · exact hs.queue_nodup.erase c
  · intro p hp
    exact hs.queue_alloc p (List.mem_of_mem_erase hp)

theorem forwardToRoomPartner_frame (s : State) (c : ClientPtr) (msg : Payload) :
    (forwardToRoomPartner s c msg).heap = s.heap ∧
    (forwardToRoomPartner s c msg).next = s.next ∧
    (forwardToRoomPartner s c msg).clients = s.clients ∧
    (forwardToRoomPartner s c msg).waitingRoom = s.waitingRoom ∧
    (forwardToRoomPartner s c msg).rooms = s.rooms := by
  unfold forwardToRoomPartner
  split
  · simp
  · split
    · simp
    · split <;> simp

theorem inv_forwardToRoomPartner {s : State} (hs : Inv s) (c : ClientPtr) (msg : Payload) :
    Inv (forwardToRoomPartner s c msg) := by
  obtain ⟨h1, h2, h3, h4, h5⟩ := forwardToRoomPartner_frame s c msg
  refine Inv.of_frame hs h2 (by rw [h3]; exact fun e he => he) (by rw [h1]; exact fun p => rfl)
    (by rw [h4]; exact hs.queue_nodup) (by rw [h4]; exact hs.queue_alloc) ?_
  intro k r h
  rw [h5] at h
  exact Or.inl h

theorem inv_endCall {s : State} (hs : Inv s) (c : ClientPtr) : Inv (endCall s c) := by
  refine Inv.of_frame hs (endCall_next s c) (by rw [endCall_clients]; exact fun e he => he)
    (endCall_conn s c) (by rw [endCall_waitingRoom]; exact hs.queue_nodup)
    (by rw [endCall_waitingRoom]; exact hs.queue_alloc) ?_
  intro k r h
  exact Or.inl (endCall_rooms_subset s c _ h)

theorem inv_handleDisconnect {s : State} (hs : Inv s) (ws : Conn) :
    Inv (handleDisconnect s ws) := by
  unfold handleDisconnect
  split
  · exact hs
  · next client hlk =>
    have h1 : Inv (leaveWaitingRoom s client) := inv_leaveWaitingRoom hs client
    have h2 : Inv (if ((leaveWaitingRoom s client).heap client).roomID ≠ "" then
        endCall (leaveWaitingRoom s client) client else leaveWaitingRoom s client) := by
      split
      · exact inv_endCall h1 client
      · exact h1
    refine Inv.of_frame h2 rfl ?_ (fun p => rfl) h2.queue_nodup h2.queue_alloc
      (fun k r h => Or.inl h)
    intro e he
    exact ((mem_mapDelete _ _ _).1 he).1

theorem inv_setUsername {s : State} (hs : Inv s) (c : ClientPtr) (u : String) :
    Inv { s with heap := Function.update s.heap c { s.heap c with username := u } } := by
  refine Inv.of_frame hs rfl (fun e he => he) ?_ hs.queue_nodup hs.queue_alloc
    (fun k r h => Or.inl h)
  intro p
  show (Function.update s.heap c { s.heap c with username := u } p).conn = (s.heap p).conn
  by_cases hp : p = c
  · subst hp; rw [Function.update_same]
  · rw [Function.update_noteq hp]

theorem inv_handleMessage {s : State} (hs : Inv s) {c : ClientPtr} (hc : c < s.next)
    (msg : Payload) : Inv (handleMessage s c msg) := by
  unfold handleMessage
  split
  · split
    · split
      · exact inv_joinWaitingRoom (inv_setUsername hs c _) hc
      · exact inv_joinWaitingRoom hs hc
    · split
      · exact inv_leaveWaitingRoom hs c
      · split
        · exact inv_forwardToRoomPartner hs c msg
        · split
          · exact inv_forwardToRoomPartner hs c msg
          · split
            · exact inv_endCall hs c
            · exact hs
  · exact hs

theorem reachable_inv {s : State} (h : Reachable s) : Inv s := by
  induction h with
  | init => exact inv_init
  | connect ws _ hf ih => exact inv_connect ih ws hf
  | join c _ hc ih => exact inv_joinWaitingRoom ih (registered_alloc ih hc)
  | leave c _ _ ih => exact inv_leaveWaitingRoom ih c
  | forward c msg _ _ ih => exact inv_forwardToRoomPartner ih c msg
  | endCall c _ _ ih => exact inv_endCall ih c
  | message c msg _ hc ih => exact inv_handleMessage ih (registered_alloc ih hc) msg
  | disconnect ws _ ih => exact inv_handleDisconnect ih ws

/-! ## Reachability of the concrete runs -/

theorem reachable_twoClients : Reachable twoClients :=
  Reachable.connect 101 (Reachable.connect 100 Reachable.init (by decide)) (by decide)

theorem reachable_fourClients : Reachable fourClients :=
  Reachable.connect 103 (Reachable.connect 102 reachable_twoClients (by decide)) (by decide)

theorem reachable_pairState : Reachable pairState :=
  Reachable.join 1 (Reachable.join 0 reachable_twoClients (by decide)) (by decide)

theorem reachable_threeClients : Reachable threeClients :=
  Reachable.connect 102 reachable_twoClients (by decide)

theorem reachable_twoRooms : Reachable twoRooms :=
  Reachable.join 3 (Reachable.join 2 (Reachable.join 1
    (Reachable.join 0 reachable_fourClients (by decide)) (by decide)) (by decide)) (by decide)

theorem reachable_reusedIdState : Reachable reusedIdState :=
  Reachable.join 0 (Reachable.endCall 0 reachable_twoRooms (by decide)) (by decide)

theorem reachable_requeuedState : Reachable requeuedState :=
  Reachable.join 0 (Reachable.endCall 1 reachable_pairState (by decide)) (by decide)

theorem reachable_rejoinState : Reachable rejoinState :=
  Reachable.join 0 reachable_pairState (by decide)

theorem reachable_doubleRoomState : Reachable doubleRoomState :=
  Reachable.join 2 (Reachable.join 0 (Reachable.join 1
    (Reachable.join 0 reachable_threeClients (by decide)) (by decide)) (by decide)) (by decide)

theorem reachable_staleState : Reachable staleState :=
  Reachable.join 3 (Reachable.join 2 (Reachable.endCall 1 (Reachable.join 1
    (Reachable.join 0 reachable_fourClients (by decide)) (by decide)) (by decide))
    (by decide)) (by decide)

/-! ## Rooms of reachable states -/

theorem room_partner {s : State} (hs : Inv s) {k : String} {r : Room} {c : ClientPtr}
    (hr : mapLookup s.rooms k = some r) (hc : isMember c r) :
    r.ID = k ∧ k ≠ "" ∧ c < s.next ∧
    ∃ p, p ≠ c ∧ p < s.next ∧ (r.Clients = [c, p] ∨ r.Clients = [p, c]) := by
  obtain ⟨h1, h0, a, b, h2, h3, h4, h5⟩ := hs.rooms_wf k r (mapLookup_mem _ _ _ hr)
  unfold isMember at hc
  rw [h2] at hc
  simp only [List.mem_cons, List.mem_singleton, List.not_mem_nil, or_false] at hc
  rcases hc with h | h
  · subst h
    exact ⟨h1, h0, h4, b, Ne.symm h3, h5, Or.inl h2⟩
  · subst h
    exact ⟨h1, h0, h5, a, h3, h4, Or.inr h2⟩

/-! ## The claims -/

/-- C9: matching is strict FIFO.  With a queue `u1 :: u2 :: rest`, `tryMatchUsers` leaves
the queue `rest`, stores under the generated identifier a room whose members are
`[u1, u2]` and touches no other registry key, and sends exactly two frames: `matched`
with data `caller` to the connection of `u1`, then `matched` with data `answerer` to the
connection of `u2`, both carrying the generated identifier.  With fewer than two queued
clients the state, the log of sent frames included, is unchanged. -/
theorem tryMatchUsers_strict_fifo (s : State) :
    (∀ u1 u2 rest, s.waitingRoom = u1 :: u2 :: rest →
      (tryMatchUsers s).waitingRoom = rest ∧
      mapLookup (tryMatchUsers s).rooms (nextRoomID s) = some ⟨nextRoomID s, [u1, u2]⟩ ∧
      (∀ k, k ≠ nextRoomID s → mapLookup (tryMatchUsers s).rooms k = mapLookup s.rooms k) ∧
      (tryMatchUsers s).outbox = s.outbox ++
        [((s.heap u1).conn, Frame.envelope ⟨"matched", "", nextRoomID s, "caller"⟩),
         ((s.heap u2).conn, Frame.envelope ⟨"matched", "", nextRoomID s, "answerer"⟩)]) ∧
    (s.waitingRoom.length < 2 → tryMatchUsers s = s) := by
  refine ⟨?_, tryMatchUsers_short s⟩
  intro u1 u2 rest h
  refine ⟨tryMatchUsers_waitingRoom s u1 u2 rest h, ?_, ?_, tryMatchUsers_outbox s u1 u2 rest h⟩
  · rw [tryMatchUsers_rooms s u1 u2 rest h, mapLookup_insert_self]
  · intro k hk
    rw [tryMatchUsers_rooms s u1 u2 rest h, mapLookup_insert_ne _ _ _ _ hk]

theorem tryMatchUsers_strict_fifo_witness :
    (pairQueued.waitingRoom = [0, 1] ∧
      (tryMatchUsers pairQueued).waitingRoom = [] ∧
      mapLookup (tryMatchUsers pairQueued).rooms "room_1" = some ⟨"room_1", [0, 1]⟩ ∧
      (tryMatchUsers pairQueued).outbox = pairQueued.outbox ++
        [(100, Frame.envelope ⟨"matched", "", "room_1", "caller"⟩),
         (101, Frame.envelope ⟨"matched", "", "room_1", "answerer"⟩)]) ∧
    (twoClients.waitingRoom.length < 2 ∧ tryMatchUsers twoClients = twoClients) :=
  have h := (tryMatchUsers_strict_fifo pairQueued).1 0 1 [] (by decide)
  ⟨⟨by decide, h.1, h.2.1, h.2.2.2⟩,
   ⟨by decide, (tryMatchUsers_strict_fifo twoClients).2 (by decide)⟩⟩

/-- C3: in a reachable state, when the roomID of `c` names a registered room `r` of
which `c` is a member, `endCall` sends exactly one frame, `call_ended`, to the
connection of the other member `p` of `r`; that connection is not the connection of `c`
nor of any other allocated client; afterwards no room is registered under the
identifier of `r`, and every other registry key maps to what it mapped to before. -/
theorem endCall_notifies_partner_once (s : State) (c : ClientPtr) (r : Room)
    (hs : Reachable s) (hr : mapLookup s.rooms (s.heap c).roomID = some r)
    (hc : isMember c r) :
    ∃ p, p ≠ c ∧ (r.Clients = [c, p] ∨ r.Clients = [p, c]) ∧
      (endCall s c).outbox
        = s.outbox ++ [((s.heap p).conn, Frame.envelope ⟨"call_ended", "", "", ""⟩)] ∧
      (s.heap p).conn ≠ (s.heap c).conn ∧
      (∀ q, q < s.next → q ≠ p → (s.heap q).conn ≠ (s.heap p).conn) ∧
      r.ID = (s.heap c).roomID ∧
      mapLookup (endCall s c).rooms r.ID = none ∧
      (∀ k, k ≠ r.ID → mapLookup (endCall s c).rooms k = mapLookup s.rooms k) := by
  have hi := reachable_inv hs
  obtain ⟨h1, h0, hcn, p, hpc, hpn, hmem⟩ := room_partner hi hr hc
  have hinj : ∀ q, q < s.next → q ≠ p → (s.heap q).conn ≠ (s.heap p).conn :=
    fun q hq hqp hconn => hqp (hi.conn_inj q p hq hpn hconn)
  have hcp : c ≠ p := Ne.symm hpc
  refine ⟨p, hpc, hmem, ?_, (hinj c hcn hcp).symm, hinj, h1, ?_, ?_⟩
  · rw [endCall_outbox s c r h0 hr]
    rcases hmem with h | h <;> rw [h] <;> simp [List.filter_cons, hpc]
  · rw [endCall_rooms s c r h0 hr, h1, mapLookup_delete_self]
  · intro k hk
    rw [h1] at hk
    rw [endCall_rooms s c r h0 hr, mapLookup_delete_ne _ _ _ hk]

theorem endCall_notifies_partner_once_witness :
    Reachable pairState ∧
    mapLookup pairState.rooms (pairState.heap 0).roomID = some ⟨"room_1", [0, 1]⟩ ∧
    isMember 0 ⟨"room_1", [0, 1]⟩ ∧
    ∃ p, p ≠ 0 ∧
      ((⟨"room_1", [0, 1]⟩ : Room).Clients = [0, p] ∨
        (⟨"room_1", [0, 1]⟩ : Room).Clients = [p, 0]) ∧
      (endCall pairState 0).outbox
        = pairState.outbox ++
          [((pairState.heap p).conn, Frame.envelope ⟨"call_ended", "", "", ""⟩)] ∧
      (pairState.heap p).conn ≠ (pairState.heap 0).conn ∧
      (∀ q, q < pairState.next → q ≠ p → (pairState.heap q).conn ≠ (pairState.heap p).conn) ∧
      (⟨"room_1", [0, 1]⟩ : Room).ID = (pairState.heap 0).roomID ∧
      mapLookup (endCall pairState 0).rooms (⟨"room_1", [0, 1]⟩ : Room).ID = none ∧
      (∀ k, k ≠ (⟨"room_1", [0, 1]⟩ : Room).ID →
        mapLookup (endCall pairState 0).rooms k = mapLookup pairState.rooms k) :=
  ⟨reachable_pairState, by decide, by decide,
   endCall_notifies_partner_once pairState 0 ⟨"room_1", [0, 1]⟩ reachable_pairState
     (by decide) (by decide)⟩

/-- C8: in a reachable state, when the roomID of `c` names a registered room `r` of
which `c` is a member, `forwardToRoomPartner` sends exactly one frame, the payload
`msg` as it was received, to the connection of the other member `p` of `r`; that
connection is not the connection of `c` nor of any other allocated client; the queue,
the room registry, the connection registry and every client struct are unchanged. -/
theorem forwardToRoomPartner_delivers (s : State) (c : ClientPtr) (r : Room) (msg : Payload)
    (hs : Reachable s) (hr : mapLookup s.rooms (s.heap c).roomID = some r)
    (hc : isMember c r) :
    ∃ p, p ≠ c ∧ (r.Clients = [c, p] ∨ r.Clients = [p, c]) ∧
      (forwardToRoomPartner s c msg).outbox
        = s.outbox ++ [((s.heap p).conn, Frame.forwarded msg)] ∧
      (s.heap p).conn ≠ (s.heap c).conn ∧
      (∀ q, q < s.next → q ≠ p → (s.heap q).conn ≠ (s.heap p).conn) ∧
      (forwardToRoomPartner s c msg).waitingRoom = s.waitingRoom ∧
      (forwardToRoomPartner s c msg).rooms = s.rooms ∧
      (forwardToRoomPartner s c msg).clients = s.clients ∧
      (forwardToRoomPartner s c msg).heap = s.heap := by
  have hi := reachable_inv hs
  obtain ⟨_, h0, hcn, p, hpc, hpn, hmem⟩ := room_partner hi hr hc
  have hinj : ∀ q, q < s.next → q ≠ p → (s.heap q).conn ≠ (s.heap p).conn :=
    fun q hq hqp hconn => hqp (hi.conn_inj q p hq hpn hconn)
  have hcp : c ≠ p := Ne.symm hpc
  obtain ⟨f1, _, f3, f4, f5⟩ := forwardToRoomPartner_frame s c msg
  refine ⟨p, hpc, hmem, ?_, (hinj c hcn hcp).symm, hinj, f4, f5, f3, f1⟩
  have hfind : r.Clients.find? (fun roomClient => decide (roomClient ≠ c)) = some p := by
    rcases hmem with h | h <;> rw [h] <;> simp [List.find?_cons, hpc]
  simp only [forwardToRoomPartner, if_neg h0, hr, hfind]

theorem forwardToRoomPartner_delivers_witness :
    Reachable pairState ∧
    mapLookup pairState.rooms (pairState.heap 1).roomID = some ⟨"room_1", [0, 1]⟩ ∧
    isMember 1 ⟨"room_1", [0, 1]⟩ ∧
    ∃ p, p ≠ 1 ∧
      ((⟨"room_1", [0, 1]⟩ : Room).Clients = [1, p] ∨
        (⟨"room_1", [0, 1]⟩ : Room).Clients = [p, 1]) ∧
      (forwardToRoomPartner pairState 1 sdpOffer).outbox
        = pairState.outbox ++ [((pairState.heap p).conn, Frame.forwarded sdpOffer)] ∧
      (pairState.heap p).conn ≠ (pairState.heap 1).conn ∧
      (∀ q, q < pairState.next → q ≠ p → (pairState.heap q).conn ≠ (pairState.heap p).conn) ∧
      (forwardToRoomPartner pairState 1 sdpOffer).waitingRoom = pairState.waitingRoom ∧
      (forwardToRoomPartner pairState 1 sdpOffer).rooms = pairState.rooms ∧
      (forwardToRoomPartner pairState 1 sdpOffer).clients = pairState.clients ∧
      (forwardToRoomPartner pairState 1 sdpOffer).heap = pairState.heap :=
  ⟨reachable_pairState, by decide, by decide,
   forwardToRoomPartner_delivers pairState 1 ⟨"room_1", [0, 1]⟩ sdpOffer reachable_pairState
     (by decide) (by decide)⟩

/-- C1: the generated room identifier can be a key of the registry already.  In the
reachable state `reusedIdState` the registry holds `room_2` with members `[2, 3]` and
client `0` is queued; when client `1` joins, `tryMatchUsers` runs with the queue
`[0, 1]`, generates `room_2` again (one room is registered, so `len(rooms)+1 = 2`), and
the store replaces the room of `2` and `3` by a room with members `[0, 1]`. -/
theorem tryMatchUsers_reuses_room_id :
    Reachable reusedIdState ∧ registered reusedIdState 1 ∧
    (enqueue reusedIdState 1).waitingRoom = [0, 1] ∧
    mapLookup (enqueue reusedIdState 1).rooms "room_2" = some ⟨"room_2", [2, 3]⟩ ∧
    nextRoomID (enqueue reusedIdState 1) = "room_2" ∧
    joinWaitingRoom reusedIdState 1 = tryMatchUsers (enqueue reusedIdState 1) ∧
    mapLookup (joinWaitingRoom reusedIdState 1).rooms "room_2" = some ⟨"room_2", [0, 1]⟩ :=
  ⟨reachable_reusedIdState, by decide, by decide, by decide, by decide, rfl, by decide⟩

/-- C2: `endCall` resets the caller only.  In the reachable state `pairState` clients
`0` and `1` are the two members of `room_1` and both have roomID `room_1`; after
`endCall` by client `0`, client `0` has roomID empty and matched false, but client `1`
still has roomID `room_1` and matched true. -/
theorem endCall_leaves_partner_matched :
    Reachable pairState ∧
    (pairState.heap 0).roomID = "room_1" ∧
    mapLookup pairState.rooms "room_1" = some ⟨"room_1", [0, 1]⟩ ∧
    ((endCall pairState 0).heap 0).roomID = "" ∧
    ((endCall pairState 0).heap 0).matched = false ∧
    ((endCall pairState 0).heap 1).roomID = "room_1" ∧
    ((endCall pairState 0).heap 1).matched = true :=
  ⟨reachable_pairState, by decide, by decide, by decide, by decide, by decide, by decide⟩

/-- C4: a disconnected client can remain a member of a registered room.  In the
reachable state `doubleRoomState` client `0` (connection `100`) is registered, is a
member of `room_1` and of `room_2`, and has roomID `room_2`; `handleDisconnect` for
connection `100` removes it from the connection registry and deletes `room_2`, and
`room_1` stays registered with client `0` among its members. -/
theorem handleDisconnect_leaves_room_reference :
    Reachable doubleRoomState ∧ registered doubleRoomState 0 ∧
    (doubleRoomState.heap 0).conn = 100 ∧
    mapLookup (handleDisconnect doubleRoomState 100).clients 100 = none ∧
    0 ∉ (handleDisconnect doubleRoomState 100).waitingRoom ∧
    mapLookup (handleDisconnect doubleRoomState 100).rooms "room_2" = none ∧
    mapLookup (handleDisconnect doubleRoomState 100).rooms "room_1"
      = some ⟨"room_1", [0, 1]⟩ ∧
    isMember 0 ⟨"room_1", [0, 1]⟩ :=
  ⟨reachable_doubleRoomState, by decide, by decide, by decide, by decide, by decide,
   by decide, by decide⟩

/-- C5: a queued client can have a non-empty roomID.  In the reachable state
`requeuedState` (clients `0` and `1` matched in `room_1`, client `1` ended the call,
client `0` joined the queue again) client `0` is in the waiting queue and its roomID
is still `room_1`. -/
theorem queued_client_keeps_roomID :
    Reachable requeuedState ∧
    requeuedState.waitingRoom = [0] ∧
    (requeuedState.heap 0).roomID = "room_1" :=
  ⟨reachable_requeuedState, by decide, by decide⟩

/-- C6: a member of a registered room can have another roomID.  In the reachable state
`doubleRoomState` the registry holds `room_1` with members `[0, 1]`, and the roomID of
client `0` is `room_2`. -/
theorem room_member_with_other_roomID :
    Reachable doubleRoomState ∧
    mapLookup doubleRoomState.rooms "room_1" = some ⟨"room_1", [0, 1]⟩ ∧
    (doubleRoomState.heap 0).roomID = "room_2" ∧
    (doubleRoomState.heap 1).roomID = "room_1" :=
  ⟨reachable_doubleRoomState, by decide, by decide, by decide⟩

/-- C7: a client that is a member of no room can have its payload relayed.  In the
reachable state `staleState` the only room is `room_1` with members `[2, 3]`; client
`0` is registered, is a member of no room, and still has roomID `room_1` from its
ended call; `forwardToRoomPartner` for client `0` writes the payload to connection
`102`, the connection of client `2`. -/
theorem forwardToRoomPartner_relays_without_room :
    Reachable staleState ∧ registered staleState 0 ∧
    staleState.rooms = [("room_1", ⟨"room_1", [2, 3]⟩)] ∧
    (∀ e ∈ staleState.rooms, ¬ isMember 0 e.2) ∧
    (staleState.heap 0).roomID = "room_1" ∧
    (staleState.heap 2).conn = 102 ∧
    (forwardToRoomPartner staleState 0 sdpOffer).outbox
      = staleState.outbox ++ [(102, Frame.forwarded sdpOffer)] :=
  ⟨reachable_staleState, by decide, by decide, by decide, by decide, by decide, by decide⟩

/-- C10: after a match the two clients can be together in a second registered room.  In
the reachable state `rejoinState` clients `0` and `1` are the members of `room_1` and
client `0` is queued; `joinWaitingRoom` by client `1` matches them: both get roomID
`room_2` and matched true, the registry maps `room_2` to a room with members `[0, 1]`,
and it still maps `room_1` to a room with the same two members. -/
theorem match_leaves_second_room_with_both :
    Reachable rejoinState ∧ registered rejoinState 1 ∧
    rejoinState.waitingRoom = [0] ∧
    (joinWaitingRoom rejoinState 1).waitingRoom = [] ∧
    ((joinWaitingRoom rejoinState 1).heap 0).roomID = "room_2" ∧
    ((joinWaitingRoom rejoinState 1).heap 1).roomID = "room_2" ∧
    ((joinWaitingRoom rejoinState 1).heap 0).matched = true ∧
    ((joinWaitingRoom rejoinState 1).heap 1).matched = true ∧
    mapLookup (joinWaitingRoom rejoinState 1).rooms "room_2" = some ⟨"room_2", [0, 1]⟩ ∧
    mapLookup (joinWaitingRoom rejoinState 1).rooms "room_1" = some ⟨"room_1", [0, 1]⟩ :=
  ⟨reachable_rejoinState, by decide, by decide, by decide, by decide, by decide, by decide,
   by decide, by decide, by decide⟩

/-! ## Queue operations keep the queue free of duplicates -/

theorem tryMatchUsers_nodup (s : State) (h : s.waitingRoom.Nodup) :
    (tryMatchUsers s).waitingRoom.Nodup := by
  by_cases hl : s.waitingRoom.length < 2
  · rw [tryMatchUsers_short s hl]; exact h
  · match hq : s.waitingRoom with
    | [] => simp [hq] at hl
    | [_] => simp [hq] at hl
    | u1 :: u2 :: rest =>
      rw [tryMatchUsers_waitingRoom s u1 u2 rest hq]
      rw [hq] at h
      exact (List.nodup_cons.1 (List.nodup_cons.1 h).2).2

theorem joinWaitingRoom_nodup (s : State) (c : ClientPtr) (h : s.waitingRoom.Nodup) :
    (joinWaitingRoom s c).waitingRoom.Nodup := by
  unfold joinWaitingRoom
  split
  · exact h
  · next hnot =>
    apply tryMatchUsers_nodup
    show (s.waitingRoom ++ [c]).Nodup
    rw [List.nodup_append]
    refine ⟨h, List.nodup_singleton c, ?_⟩
    intro a ha hb
    rw [List.mem_singleton] at hb
    subst hb
    exact hnot ha

theorem applyQueueOp_nodup (s : State) (op : QueueOp) (h : s.waitingRoom.Nodup) :
    (applyQueueOp s op).waitingRoom.Nodup := by
  cases op with
  | join c => exact joinWaitingRoom_nodup s c h
  | leave c => exact h.erase c

theorem runQueueOps_nodup (ops : List QueueOp) (s : State) (h : s.waitingRoom.Nodup) :
    (runQueueOps s ops).waitingRoom.Nodup := by
  induction ops generalizing s with
  | nil => exact h
  | cons op rest ih => exact ih (applyQueueOp s op) (applyQueueOp_nodup s op h)

/-! ## Teardown of a connection -/

theorem handleDisconnect_absent (s : State) (ws : Conn) (h : mapLookup s.clients ws = none) :
    handleDisconnect s ws = s := by
  simp only [handleDisconnect, h]

theorem handleDisconnect_unregisters (s : State) (ws : Conn) :
    mapLookup (handleDisconnect s ws).clients ws = none := by
  cases h : mapLookup s.clients ws with
  | none => rw [handleDisconnect_absent s ws h]; exact h
  | some client =>
    simp only [handleDisconnect, h]
    exact mapLookup_delete_self _ _

theorem handleDisconnectLocked_blocked (s : State) (ws : Conn) (client : ClientPtr)
    (h : mapLookup s.clients ws = some client) :
    handleDisconnectLocked s false ws = Outcome.blocked := by
  simp [handleDisconnectLocked, withMuLock, leaveWaitingRoomLocked, h]

/-! ## Joining an empty queue and a queue of one -/

theorem enqueue_waitingRoom (s : State) (c : ClientPtr) :
    (enqueue s c).waitingRoom = s.waitingRoom ++ [c] := rfl

theorem enqueue_heap (s : State) (c : ClientPtr) : (enqueue s c).heap = s.heap := rfl

theorem enqueue_rooms (s : State) (c : ClientPtr) : (enqueue s c).rooms = s.rooms := rfl

theorem enqueue_outbox (s : State) (c : ClientPtr) :
    (enqueue s c).outbox
      = s.outbox ++
        [((s.heap c).conn, Frame.envelope (waitingStatus (s.waitingRoom.length + 1)))] := by
  simp [enqueue, waitingStatus]

theorem joinWaitingRoom_of_empty (s : State) (c : ClientPtr) (h : s.waitingRoom = []) :
    joinWaitingRoom s c = enqueue s c := by
  have hnot : c ∉ s.waitingRoom := by rw [h]; exact List.not_mem_nil c
  unfold joinWaitingRoom
  rw [if_neg hnot]
  apply tryMatchUsers_short
  rw [enqueue_waitingRoom, h]
  simp

theorem joinWaitingRoom_of_single (s : State) (a c : ClientPtr) (h : s.waitingRoom = [a])
    (hne : c ≠ a) : joinWaitingRoom s c = tryMatchUsers (enqueue s c) := by
  have hnot : c ∉ s.waitingRoom := by
    rw [h, List.mem_singleton]; exact hne
  unfold joinWaitingRoom
  rw [if_neg hnot]

/-! ## The queue of a reachable state holds at most one client -/

theorem joinWaitingRoom_length (s : State) (c : ClientPtr) (h : s.waitingRoom.length ≤ 1) :
    (joinWaitingRoom s c).waitingRoom.length ≤ 1 := by
  match hq : s.waitingRoom with
  | [] =>
    rw [joinWaitingRoom_of_empty s c hq, enqueue_waitingRoom, hq]
    simp
  | [a] =>
    by_cases hca : c = a
    · have hin : c ∈ s.waitingRoom := by rw [hq, hca]; exact List.mem_singleton_self a
      unfold joinWaitingRoom
      rw [if_pos hin, hq]
      simp
    · rw [joinWaitingRoom_of_single s a c hq hca,
        tryMatchUsers_waitingRoom (enqueue s c) a c [] (by rw [enqueue_waitingRoom, hq]; rfl)]
      simp
  | _ :: _ :: _ => rw [hq] at h; simp at h

theorem leaveWaitingRoom_length (s : State) (c : ClientPtr) :
    (leaveWaitingRoom s c).waitingRoom.length ≤ s.waitingRoom.length := by
  show (s.waitingRoom.erase c).length ≤ s.waitingRoom.length
  exact List.length_erase_le c s.waitingRoom

theorem handleDisconnect_length (s : State) (ws : Conn) :
    (handleDisconnect s ws).waitingRoom.length ≤ s.waitingRoom.length := by
  unfold handleDisconnect
  split
  · exact Nat.le_refl _
  · next client _ =>
    show (if ((leaveWaitingRoom s client).heap client).roomID ≠ "" then
        endCall (leaveWaitingRoom s client) client
        else leaveWaitingRoom s client).waitingRoom.length ≤ s.waitingRoom.length
    split
    · rw [endCall_waitingRoom]; exact leaveWaitingRoom_length s client
    · exact leaveWaitingRoom_length s client

theorem handleMessage_length (s : State) (c : ClientPtr) (msg : Payload)
    (h : s.waitingRoom.length ≤ 1) : (handleMessage s c msg).waitingRoom.length ≤ 1 := by
  unfold handleMessage
  split
  · split
    · split
      · exact joinWaitingRoom_length _ c h
      · exact joinWaitingRoom_length _ c h
    · split
      · exact Nat.le_trans (leaveWaitingRoom_length s c) h
      · split
        · rw [(forwardToRoomPartner_frame s c msg).2.2.2.1]; exact h
        · split
          · rw [(forwardToRoomPartner_frame s c msg).2.2.2.1]; exact h
          · split
            · rw [endCall_waitingRoom]; exact h
            · exact h
  · exact h

theorem reachable_queue_length {s : State} (h : Reachable s) : s.waitingRoom.length ≤ 1 := by
  induction h with
  | init => exact Nat.zero_le 1
  | connect ws _ _ ih => exact ih
  | join c _ _ ih => exact joinWaitingRoom_length _ c ih
  | leave c _ _ ih => exact Nat.le_trans (leaveWaitingRoom_length _ c) ih
  | forward c msg _ _ ih => rw [(forwardToRoomPartner_frame _ c msg).2.2.2.1]; exact ih
  | endCall c _ _ ih => rw [endCall_waitingRoom]; exact ih
  | message c msg _ _ ih => exact handleMessage_length _ c msg ih
  | disconnect ws _ ih => exact Nat.le_trans (handleDisconnect_length _ ws) ih

/-! ## `matched` and `roomID` agree in every reachable state -/

theorem consistent_tryMatchUsers (s : State) (h : ∀ p, Consistent (s.heap p)) (p : ClientPtr) :
    Consistent ((tryMatchUsers s).heap p) := by
  by_cases hl : s.waitingRoom.length < 2
  · rw [tryMatchUsers_short s hl]; exact h p
  · match hq : s.waitingRoom with
    | [] => simp [hq] at hl
    | [_] => simp [hq] at hl
    | u1 :: u2 :: rest =>
      rw [tryMatchUsers_heap s u1 u2 rest hq p]
      split
      · exact ⟨fun _ => nextRoomID_ne_empty s, fun _ => rfl⟩
      · exact h p

theorem consistent_joinWaitingRoom (s : State) (c : ClientPtr)
    (h : ∀ p, Consistent (s.heap p)) (p : ClientPtr) :
    Consistent ((joinWaitingRoom s c).heap p) := by
  unfold joinWaitingRoom
  split
  · exact h p
  · exact consistent_tryMatchUsers (enqueue s c) h p

theorem consistent_endCall (s : State) (c : ClientPtr)
    (h : ∀ p, Consistent (s.heap p)) (p : ClientPtr) :
    Consistent ((endCall s c).heap p) := by
  by_cases h1 : (s.heap c).roomID = ""
  · simp only [endCall, if_pos h1]; exact h p
  · cases h2 : mapLookup s.rooms (s.heap c).roomID with
    | none => simp only [endCall, if_neg h1, h2]; exact h p
    | some r =>
      rw [endCall_heap s c r h1 h2 p]
      split
      · exact ⟨fun hm => by simp at hm, fun hr => absurd rfl hr⟩
      · exact h p

theorem consistent_connect (s : State) (ws : Conn)
    (h : ∀ p, Consistent (s.heap p)) (p : ClientPtr) :
    Consistent ((connect s ws).heap p) := by
  show Consistent (Function.update s.heap s.next ⟨ws, "", "", false⟩ p)
  by_cases hp : p = s.next
  · rw [hp, Function.update_same]
    exact ⟨fun hm => by simp at hm, fun hr => absurd rfl hr⟩
  · rw [Function.update_noteq hp]; exact h p

theorem consistent_setUsername (s : State) (c : ClientPtr) (u : String)
    (h : ∀ p, Consistent (s.heap p)) (p : ClientPtr) :
    Consistent (Function.update s.heap c { s.heap c with username := u } p) := by
  by_cases hp : p = c
  · rw [hp, Function.update_same]; exact h c
  · rw [Function.update_noteq hp]; exact h p

theorem consistent_handleMessage (s : State) (c : ClientPtr) (msg : Payload)
    (h : ∀ p, Consistent (s.heap p)) (p : ClientPtr) :
    Consistent ((handleMessage s c msg).heap p) := by
  unfold handleMessage
  split
  · split
    · split
      · exact consistent_joinWaitingRoom _ c (consistent_setUsername s c _ h) p
      · exact consistent_joinWaitingRoom s c h p
    · split
      · exact h p
      · split
        · rw [(forwardToRoomPartner_frame s c msg).1]; exact h p
        · split
          · rw [(forwardToRoomPartner_frame s c msg).1]; exact h p
          · split
            · exact consistent_endCall s c h p
            · exact h p
  · exact h p

theorem consistent_handleDisconnect (s : State) (ws : Conn)
    (h : ∀ p, Consistent (s.heap p)) (p : ClientPtr) :
    Consistent ((handleDisconnect s ws).heap p) := by
  unfold handleDisconnect
  split
  · exact h p
  · next client _ =>
    show Consistent ((if ((leaveWaitingRoom s client).heap client).roomID ≠ "" then
        endCall (leaveWaitingRoom s client) client
        else leaveWaitingRoom s client).heap p)
    split
    · exact consistent_endCall (leaveWaitingRoom s client) client h p
    · exact h p

theorem reachable_consistent {s : State} (h : Reachable s) (p : ClientPtr) :
    Consistent (s.heap p) := by
  induction h generalizing p with
  | init => exact ⟨fun hm => by simp [State.init] at hm, fun hr => absurd rfl hr⟩
  | connect ws _ _ ih => exact consistent_connect _ ws ih p
  | join c _ _ ih => exact consistent_joinWaitingRoom _ c ih p
  | leave c _ _ ih => exact ih p
  | forward c msg _ _ ih => rw [(forwardToRoomPartner_frame _ c msg).1]; exact ih p
  | endCall c _ _ ih => exact consistent_endCall _ c ih p
  | message c msg _ _ ih => exact consistent_handleMessage _ c msg ih p
  | disconnect ws _ ih => exact consistent_handleDisconnect _ ws ih p

/-! ## What a join does to an empty queue and to a queue of one -/

theorem joinWaitingRoom_conn (s : State) (c q : ClientPtr) :
    ((joinWaitingRoom s c).heap q).conn = (s.heap q).conn := by
  unfold joinWaitingRoom
  split
  · rfl
  · rw [tryMatchUsers_conn]; rfl

theorem nextRoomID_of_empty (s : State) (h : s.rooms = []) : nextRoomID s = "room_1" := by
  unfold nextRoomID
  rw [h]
  rfl

theorem join_alone (s : State) (c : ClientPtr) (hq : s.waitingRoom = []) :
    (joinWaitingRoom s c).waitingRoom = [c] ∧
    (joinWaitingRoom s c).rooms = s.rooms ∧
    (joinWaitingRoom s c).heap = s.heap ∧
    (joinWaitingRoom s c).outbox
      = s.outbox ++ [((s.heap c).conn, Frame.envelope (waitingStatus 1))] := by
  rw [joinWaitingRoom_of_empty s c hq]
  refine ⟨by rw [enqueue_waitingRoom, hq]; rfl, rfl, rfl, ?_⟩
  rw [enqueue_outbox, hq]
  rfl

theorem match_pair (s : State) (a c : ClientPtr) (hq : s.waitingRoom = [a]) (hne : c ≠ a) :
    (joinWaitingRoom s c).waitingRoom = [] ∧
    (joinWaitingRoom s c).rooms
      = mapInsert s.rooms (nextRoomID s) ⟨nextRoomID s, [a, c]⟩ ∧
    (∀ q, (joinWaitingRoom s c).heap q
      = if q = a ∨ q = c then { s.heap q with roomID := nextRoomID s, matched := true }
        else s.heap q) ∧
    (joinWaitingRoom s c).outbox
      = s.outbox ++
        [((s.heap c).conn, Frame.envelope (waitingStatus 2)),
         ((s.heap a).conn, Frame.envelope ⟨"matched", "", nextRoomID s, "caller"⟩),
         ((s.heap c).conn, Frame.envelope ⟨"matched", "", nextRoomID s, "answerer"⟩)] := by
  have he : (enqueue s c).waitingRoom = a :: c :: [] := by
    rw [enqueue_waitingRoom, hq]; rfl
  rw [joinWaitingRoom_of_single s a c hq hne]
  refine ⟨tryMatchUsers_waitingRoom _ a c [] he, tryMatchUsers_rooms _ a c [] he,
    fun q => tryMatchUsers_heap _ a c [] he q, ?_⟩
  rw [tryMatchUsers_outbox _ a c [] he, enqueue_outbox, hq]
  simp only [enqueue_heap, List.append_assoc, List.singleton_append, List.length_nil]
  rfl

/-- C11: the re-join scenario.  From a state with an empty queue and no rooms, for
clients `X`, `Y`, `Z` with `X` different from `Y` and from `Z`: after `X` and `Y` join
they are matched in `room_1` (`X` told `caller`, `Y` told `answerer`); when `Y` calls
`endCall`, exactly one frame is sent, `call_ended` to the connection of `X`, and the
registry is empty; when then `X` and `Z` join, the registry holds exactly one room,
`room_1` with members `[X, Z]`, the queue is empty, `X` is sent `matched`/`caller` and
`Z` is sent `matched`/`answerer`, both with the identifier `room_1`, and the roomID of
`X` and of `Z` is `room_1`. -/
theorem rejoin_after_end_call (s : State) (X Y Z : ClientPtr)
    (hq : s.waitingRoom = []) (hr : s.rooms = []) (hXY : X ≠ Y) (hXZ : X ≠ Z) :
    (firstMatch s X Y).rooms = [("room_1", ⟨"room_1", [X, Y]⟩)] ∧
    ((firstMatch s X Y).heap X).roomID = "room_1" ∧
    ((firstMatch s X Y).heap Y).roomID = "room_1" ∧
    (firstMatch s X Y).outbox
      = s.outbox ++
        [((s.heap X).conn, Frame.envelope (waitingStatus 1)),
         ((s.heap Y).conn, Frame.envelope (waitingStatus 2)),
         ((s.heap X).conn, Frame.envelope ⟨"matched", "", "room_1", "caller"⟩),
         ((s.heap Y).conn, Frame.envelope ⟨"matched", "", "room_1", "answerer"⟩)] ∧
    (afterEnd s X Y).outbox
      = (firstMatch s X Y).outbox ++
        [((s.heap X).conn, Frame.envelope ⟨"call_ended", "", "", ""⟩)] ∧
    (afterEnd s X Y).rooms = [] ∧
    (rematch s X Y Z).rooms = [("room_1", ⟨"room_1", [X, Z]⟩)] ∧
    (rematch s X Y Z).waitingRoom = [] ∧
    (rematch s X Y Z).outbox
      = (afterEnd s X Y).outbox ++
        [((s.heap X).conn, Frame.envelope (waitingStatus 1)),
         ((s.heap Z).conn, Frame.envelope (waitingStatus 2)),
         ((s.heap X).conn, Frame.envelope ⟨"matched", "", "room_1", "caller"⟩),
         ((s.heap Z).conn, Frame.envelope ⟨"matched", "", "room_1", "answerer"⟩)] ∧
    ((rematch s X Y Z).heap X).roomID = "room_1" ∧
    ((rematch s X Y Z).heap Z).roomID = "room_1" ∧
    "room_1" ≠ "" := by
  -- X joins
  obtain ⟨q1, r1, h1, o1⟩ := join_alone s X hq
  have id1 : nextRoomID (joinWaitingRoom s X) = "room_1" :=
    nextRoomID_of_empty _ (by rw [r1, hr])
  -- Y joins
  obtain ⟨q2, r2, h2, o2⟩ := match_pair (joinWaitingRoom s X) X Y q1 (Ne.symm hXY)
  rw [id1, r1, hr] at r2
  rw [id1, h1, o1] at o2
  rw [id1] at h2
  have r2a : (firstMatch s X Y).rooms = [("room_1", ⟨"room_1", [X, Y]⟩)] := r2
  have hX2 : ((firstMatch s X Y).heap X).roomID = "room_1" := by
    show ((joinWaitingRoom (joinWaitingRoom s X) Y).heap X).roomID = "room_1"
    rw [h2 X]; simp
  have hY2 : ((firstMatch s X Y).heap Y).roomID = "room_1" := by
    show ((joinWaitingRoom (joinWaitingRoom s X) Y).heap Y).roomID = "room_1"
    rw [h2 Y]; simp
  have o2a : (firstMatch s X Y).outbox
      = s.outbox ++
        [((s.heap X).conn, Frame.envelope (waitingStatus 1)),
         ((s.heap Y).conn, Frame.envelope (waitingStatus 2)),
         ((s.heap X).conn, Frame.envelope ⟨"matched", "", "room_1", "caller"⟩),
         ((s.heap Y).conn, Frame.envelope ⟨"matched", "", "room_1", "answerer"⟩)] := by
    show (joinWaitingRoom (joinWaitingRoom s X) Y).outbox = _
    rw [o2]; simp
  have q2a : (firstMatch s X Y).waitingRoom = [] := q2
  have cX2 : ((firstMatch s X Y).heap X).conn = (s.heap X).conn := by
    show ((joinWaitingRoom (joinWaitingRoom s X) Y).heap X).conn = _
    rw [joinWaitingRoom_conn, joinWaitingRoom_conn]
  -- Y ends the call
  have ne3 : ((firstMatch s X Y).heap Y).roomID ≠ "" := by rw [hY2]; decide
  have lk3 : mapLookup (firstMatch s X Y).rooms ((firstMatch s X Y).heap Y).roomID
      = some ⟨"room_1", [X, Y]⟩ := by
    rw [hY2, r2a]; rfl
  have o3 : (afterEnd s X Y).outbox
      = (firstMatch s X Y).outbox ++
        [((s.heap X).conn, Frame.envelope ⟨"call_ended", "", "", ""⟩)] := by
    show (endCall (firstMatch s X Y) Y).outbox = _
    rw [endCall_outbox _ Y _ ne3 lk3]
    simp [List.filter_cons, hXY, cX2]
  have r3 : (afterEnd s X Y).rooms = [] := by
    show (endCall (firstMatch s X Y) Y).rooms = _
    rw [endCall_rooms _ Y _ ne3 lk3, hY2, r2a]
    rfl
  have q3 : (afterEnd s X Y).waitingRoom = [] := by
    show (endCall (firstMatch s X Y) Y).waitingRoom = _
    rw [endCall_waitingRoom, q2a]
  have c3 : ∀ q, ((afterEnd s X Y).heap q).conn = (s.heap q).conn := by
    intro q
    show ((endCall (joinWaitingRoom (joinWaitingRoom s X) Y) Y).heap q).conn = _
    rw [endCall_conn, joinWaitingRoom_conn, joinWaitingRoom_conn]
  -- X joins again
  obtain ⟨q4, r4, h4, o4⟩ := join_alone (afterEnd s X Y) X q3
  have id4 : nextRoomID (joinWaitingRoom (afterEnd s X Y) X) = "room_1" :=
    nextRoomID_of_empty _ (by rw [r4, r3])
  -- Z joins
  obtain ⟨q5, r5, h5, o5⟩ := match_pair (joinWaitingRoom (afterEnd s X Y) X) X Z q4 (Ne.symm hXZ)
  rw [id4, r4, r3] at r5
  rw [id4, h4, o4, c3 X, c3 Z] at o5
  rw [id4] at h5
  refine ⟨r2a, hX2, hY2, o2a, o3, r3, r5, q5, ?_, ?_, ?_, by decide⟩
  · show (joinWaitingRoom (joinWaitingRoom (afterEnd s X Y) X) Z).outbox = _
    rw [o5]; simp
  · show ((joinWaitingRoom (joinWaitingRoom (afterEnd s X Y) X) Z).heap X).roomID = "room_1"
    rw [h5 X]; simp
  · show ((joinWaitingRoom (joinWaitingRoom (afterEnd s X Y) X) Z).heap Z).roomID = "room_1"
    rw [h5 Z]; simp

theorem rejoin_after_end_call_witness :
    threeClients.waitingRoom = [] ∧ threeClients.rooms = [] ∧
    (0 : ClientPtr) ≠ 1 ∧ (0 : ClientPtr) ≠ 2 ∧
    (firstMatch threeClients 0 1).rooms = [("room_1", ⟨"room_1", [0, 1]⟩)] ∧
    (afterEnd threeClients 0 1).outbox
      = (firstMatch threeClients 0 1).outbox ++
        [((threeClients.heap 0).conn, Frame.envelope ⟨"call_ended", "", "", ""⟩)] ∧
    (afterEnd threeClients 0 1).rooms = [] ∧
    (rematch threeClients 0 1 2).rooms = [("room_1", ⟨"room_1", [0, 2]⟩)] ∧
    ((rematch threeClients 0 1 2).heap 0).roomID = "room_1" ∧
    ((rematch threeClients 0 1 2).heap 2).roomID = "room_1" :=
  have h := rejoin_after_end_call threeClients 0 1 2 rfl rfl (by decide) (by decide)
  ⟨rfl, rfl, by decide, by decide, h.1, h.2.2.2.2.1, h.2.2.2.2.2.1, h.2.2.2.2.2.2.1,
   h.2.2.2.2.2.2.2.2.2.1, h.2.2.2.2.2.2.2.2.2.2.1⟩

/-- C12: in a reachable state with client `a` in the waiting queue, for every client
`b` other than `a`, after `leaveWaitingRoom` by `a` followed by `joinWaitingRoom` by
`b`: `a` is not in the queue; the only frame sent is the `waiting` status to the
connection of `b`, so no `matched` frame is sent to anyone; the room registry and
every client struct (the roomID of `a` among them) are as before the leave. -/
theorem leave_then_join_never_matches (s : State) (a b : ClientPtr)
    (hs : Reachable s) (ha : a ∈ s.waitingRoom) (hab : b ≠ a) :
    a ∉ (joinWaitingRoom (leaveWaitingRoom s a) b).waitingRoom ∧
    (joinWaitingRoom (leaveWaitingRoom s a) b).outbox
      = s.outbox ++ [((s.heap b).conn, Frame.envelope (waitingStatus 1))] ∧
    (∀ e ∈ (joinWaitingRoom (leaveWaitingRoom s a) b).outbox.drop s.outbox.length,
      ∀ m, e.2 = Frame.envelope m → m.Type_ ≠ "matched") ∧
    (joinWaitingRoom (leaveWaitingRoom s a) b).rooms = s.rooms ∧
    (joinWaitingRoom (leaveWaitingRoom s a) b).heap = s.heap := by
  have hlen := reachable_queue_length hs
  have hq : s.waitingRoom = [a] := by
    match hw : s.waitingRoom with
    | [] => rw [hw] at ha; exact absurd ha (List.not_mem_nil a)
    | [x] =>
      rw [hw, List.mem_singleton] at ha
      rw [ha]
    | _ :: _ :: _ => rw [hw] at hlen; simp at hlen
  have hl : (leaveWaitingRoom s a).waitingRoom = [] := by
    show s.waitingRoom.erase a = []
    rw [hq]
    simp
  obtain ⟨q1, r1, h1, o1⟩ := join_alone (leaveWaitingRoom s a) b hl
  have o2 : (joinWaitingRoom (leaveWaitingRoom s a) b).outbox
      = s.outbox ++ [((s.heap b).conn, Frame.envelope (waitingStatus 1))] := o1
  refine ⟨?_, o2, ?_, r1, h1⟩
  · rw [q1, List.mem_singleton]
    exact Ne.symm hab
  · intro e he m hm
    rw [o2, List.drop_left] at he
    rw [List.mem_singleton] at he
    rw [he] at hm
    injection hm with hm
    rw [← hm]
    decide

/-- Client `0` alone in the queue, clients `0` and `1` connected. -/
theorem reachable_oneQueued : Reachable (joinWaitingRoom twoClients 0) :=
  Reachable.join 0 reachable_twoClients (by decide)

theorem leave_then_join_never_matches_witness :
    Reachable (joinWaitingRoom twoClients 0) ∧
    (0 : ClientPtr) ∈ (joinWaitingRoom twoClients 0).waitingRoom ∧ (1 : ClientPtr) ≠ 0 ∧
    (0 : ClientPtr) ∉
      (joinWaitingRoom (leaveWaitingRoom (joinWaitingRoom twoClients 0) 0) 1).waitingRoom ∧
    (joinWaitingRoom (leaveWaitingRoom (joinWaitingRoom twoClients 0) 0) 1).rooms
      = (joinWaitingRoom twoClients 0).rooms :=
  have h := leave_then_join_never_matches (joinWaitingRoom twoClients 0) 0 1
    reachable_oneQueued (by decide) (by decide)
  ⟨reachable_oneQueued, by decide, by decide, h.1, h.2.2.2.1⟩

/-- C13: for every finite sequence of `joinWaitingRoom` and `leaveWaitingRoom`
operations by any clients, applied from the initial state, the waiting queue after
every prefix of the sequence holds no client twice. -/
theorem queue_never_holds_a_client_twice (ops : List QueueOp) (n : Nat) :
    (runQueueOps State.init (ops.take n)).waitingRoom.Nodup :=
  runQueueOps_nodup (ops.take n) State.init List.nodup_nil

/-- C14: `handleDisconnect` is idempotent.  For every state and every connection
handle, the second application returns the state of the first unchanged: same
connection registry, queue, room registry and client structs, and nothing more in the
log of sent frames.  For a handle absent from the connection registry the first
application changes nothing either. -/
theorem handleDisconnect_idempotent (s : State) (ws : Conn) :
    handleDisconnect (handleDisconnect s ws) ws = handleDisconnect s ws ∧
    (handleDisconnect (handleDisconnect s ws) ws).outbox = (handleDisconnect s ws).outbox ∧
    (mapLookup s.clients ws = none → handleDisconnect s ws = s) := by
  have h := handleDisconnect_absent (handleDisconnect s ws) ws (handleDisconnect_unregisters s ws)
  exact ⟨h, by rw [h], handleDisconnect_absent s ws⟩

theorem handleDisconnect_idempotent_witness :
    handleDisconnect (handleDisconnect pairState 100) 100 = handleDisconnect pairState 100 ∧
    (mapLookup pairState.clients 7 = none ∧ handleDisconnect pairState 7 = pairState) :=
  ⟨(handleDisconnect_idempotent pairState 100).1,
   by decide, (handleDisconnect_idempotent pairState 7).2.2 (by decide)⟩

/-- C15: `handleDisconnect` blocks on a registered connection.  With the mutex free,
in the reachable state `twoClients` where connection `100` is registered for client
`0`, `handleDisconnect` acquires the mutex and calls `leaveWaitingRoom`, whose own
`mu.Lock()` then finds the mutex held: the call never returns.  (For the unregistered
handle `7` it returns with the mutex free, and `leaveWaitingRoom` called with the
mutex free returns with the mutex free.) -/
theorem handleDisconnect_blocks_on_own_lock :
    Reachable twoClients ∧
    mapLookup twoClients.clients 100 = some 0 ∧
    leaveWaitingRoomLocked twoClients true 0 = Outcome.blocked ∧
    handleDisconnectLocked twoClients false 100 = Outcome.blocked ∧
    handleDisconnectLocked twoClients false 7 = Outcome.returned twoClients false ∧
    leaveWaitingRoomLocked twoClients false 0
      = Outcome.returned (leaveWaitingRoom twoClients 0) false :=
  ⟨reachable_twoClients, by decide, rfl, rfl, rfl, rfl⟩

/-- C16: the display name sent under the key `username` is not stored.  For the
registered client `0` of `twoClients` and the message
`{"type": "join_waiting", "username": "alice"}`, after `handleMessage` the client is
queued and its username is still empty; the name is stored only when it is sent under
the key `Username`. -/
theorem handleMessage_ignores_username :
    registered twoClients 0 ∧
    mapLookup joinAlice "type" = some (JSONValue.str "join_waiting") ∧
    mapLookup joinAlice "username" = some (JSONValue.str "alice") ∧
    (handleMessage twoClients 0 joinAlice).waitingRoom = [0] ∧
    ((handleMessage twoClients 0 joinAlice).heap 0).username = "" ∧
    ((handleMessage twoClients 0
        [("type", JSONValue.str "join_waiting"), ("Username", JSONValue.str "alice")]).heap
      0).username = "alice" :=
  ⟨by decide, by decide, by decide, by decide, by decide, by decide⟩

/-- C17: in every reachable state, for every client struct (so for every registered,
queued or room-referenced client), `matched` is true if and only if `roomID` is not
the empty string. -/
theorem matched_iff_roomID_nonempty (s : State) (hs : Reachable s) (p : ClientPtr) :
    (s.heap p).matched = true ↔ (s.heap p).roomID ≠ "" :=
  reachable_consistent hs p

theorem matched_iff_roomID_nonempty_witness :
    Reachable pairState ∧
    ((pairState.heap 0).matched = true ↔ (pairState.heap 0).roomID ≠ "") :=
  ⟨reachable_pairState, matched_iff_roomID_nonempty pairState reachable_pairState 0⟩

/-- C18: in every reachable state, every room of the room registry has exactly two
members, and the two are different clients. -/
theorem rooms_have_two_distinct_members (s : State) (hs : Reachable s) (k : String) (r : Room)
    (hr : (k, r) ∈ s.rooms) :
    r.Clients.length = 2 ∧ ∃ a b, r.Clients = [a, b] ∧ a ≠ b := by
  obtain ⟨_, _, a, b, h2, h3, _, _⟩ := (reachable_inv hs).rooms_wf k r hr
  exact ⟨by rw [h2]; rfl, a, b, h2, h3⟩

theorem rooms_have_two_distinct_members_witness :
    Reachable pairState ∧ ("room_1", (⟨"room_1", [0, 1]⟩ : Room)) ∈ pairState.rooms ∧
    ((⟨"room_1", [0, 1]⟩ : Room).Clients.length = 2 ∧
      ∃ a b, (⟨"room_1", [0, 1]⟩ : Room).Clients = [a, b] ∧ a ≠ b) :=
  ⟨reachable_pairState, by decide,
   rooms_have_two_distinct_members pairState reachable_pairState "room_1" ⟨"room_1", [0, 1]⟩
     (by decide)⟩

/-- C19: in every reachable state the waiting queue holds at most one client. -/
theorem queue_holds_at_most_one (s : State) (hs : Reachable s) :
    s.waitingRoom.length ≤ 1 :=
  reachable_queue_length hs

theorem queue_holds_at_most_one_witness :
    Reachable rejoinState ∧ rejoinState.waitingRoom.length ≤ 1 :=
  ⟨reachable_rejoinState, queue_holds_at_most_one rejoinState reachable_rejoinState⟩

/-- C20: `endCall` by a client that is not a member can delete a room.  In the
reachable state `staleState` the roomID of the registered client `0` is `room_1`, left
over from its ended call, and the room registered under `room_1` has members `[2, 3]`;
`endCall` by client `0` sends `call_ended` to the connections `102` and `103` of
clients `2` and `3` and deletes their room. -/
theorem endCall_by_non_member_deletes_room :
    Reachable staleState ∧ registered staleState 0 ∧
    mapLookup staleState.rooms (staleState.heap 0).roomID = some ⟨"room_1", [2, 3]⟩ ∧
    ¬ isMember 0 ⟨"room_1", [2, 3]⟩ ∧
    (endCall staleState 0).rooms = [] ∧
    (endCall staleState 0).outbox
      = staleState.outbox ++
        [(102, Frame.envelope ⟨"call_ended", "", "", ""⟩),
         (103, Frame.envelope ⟨"call_ended", "", "", ""⟩)] :=
  ⟨reachable_staleState, by decide, by decide, by decide, by decide, by decide⟩

end Omegal
